import Mathlib

/-!
Verification development for the C++ log-ingestion engine
(`cpp-ingester`): a shallow embedding in Lean 4 of the SPSC ring
buffer (`ring_buffer.h`), the stream-consumer decode/dispatch logic
(`redis_consumer.cpp`), the writer pool's batching/retry/ack logic
(`clickhouse_writer.cpp`) and the orchestrator's exit-code logic
(`main.cpp`), together with theorems settling the specification
claims about them.

Machine integers: `size_t` is modelled as `Nat` with explicit
`% 2 ^ 64` wherever the C++ code can wrap around.
-/

namespace Ingester

/-- `2^64`, the modulus of `size_t` arithmetic. -/
def W64 : Nat := 2 ^ 64

/-! ## SPSC ring buffer (`ring_buffer.h`)

State of a `LockFreeRingBuffer<T>`: the capacity (`capacity_`), the
two cursors (`head_`, `tail_`) and the slot contents (`buffer_`,
modelled as a total function from slot index to `T`; the C++ vector
has `capacity_` slots and is only ever indexed below `capacity_`).
`mask_` is always `capacity_ - 1`, so it is a derived function here. -/
structure RBState (T : Type) where
  cap : Nat
  head : Nat
  tail : Nat
  data : Nat → T

variable {T : Type}

/-- `mask_ = capacity_ - 1` (ring_buffer.h line 23). -/
def RBState.mask (s : RBState T) : Nat := s.cap - 1

/-- `try_push` (ring_buffer.h lines 33-44): compute
`next_head = (head + 1) & mask_`; fail iff it equals `tail`;
otherwise install the item at `head` and publish `next_head`. -/
def try_push (s : RBState T) (x : T) : Bool × RBState T :=
  let next_head := (s.head + 1) &&& s.mask
  if next_head = s.tail then
    (false, s)
  else
    (true, { s with data := fun i => if i = s.head then x else s.data i
                    head := next_head })

/-- `try_pop` (ring_buffer.h lines 50-60): empty iff `tail == head`;
otherwise move the item out of slot `tail` and publish
`(tail + 1) & mask_`. -/
def try_pop (s : RBState T) : Option T × RBState T :=
  if s.tail = s.head then
    (none, s)
  else
    (some (s.data s.tail), { s with tail := (s.tail + 1) &&& s.mask })

/-- The copy loop of `pop_batch` (ring_buffer.h lines 82-86): the
items read from slot `cur`, `(cur+1) & mask_`, ... (`n` of them). -/
def popLoop (s : RBState T) : Nat → Nat → List T
  | _, 0 => []
  | cur, n + 1 => s.data cur :: popLoop s ((cur + 1) &&& s.mask) n

/-- The final value of `current` after the copy loop of `pop_batch`. -/
def popCursor (s : RBState T) : Nat → Nat → Nat
  | cur, 0 => cur
  | cur, n + 1 => popCursor s ((cur + 1) &&& s.mask) n

/-- `pop_batch` (ring_buffer.h lines 65-90).  Returns the extended
`out` vector, the new buffer state, the returned count, and the
number of stores performed on the `tail_` cursor during the call
(`tail_.store` at line 88 runs only on the non-empty path).
`(head - tail)` is `size_t` subtraction, hence the `% W64`. -/
def pop_batch (s : RBState T) (out : List T) (max_count : Nat) :
    List T × RBState T × Nat × Nat :=
  if s.tail = s.head then
    (out, s, 0, 0)
  else
    let avail0 := ((s.head + W64 - s.tail) % W64) &&& s.mask
    let avail := if s.head < s.tail then s.cap - s.tail + s.head else avail0
    let count := min avail max_count
    let out2 := out ++ popLoop s s.tail count
    let cur := popCursor s s.tail count
    (out2, { s with tail := cur }, count, 1)

/-- `size` (ring_buffer.h lines 92-96): `(head - tail) & mask_` in
`size_t` arithmetic. -/
def RBState.size (s : RBState T) : Nat :=
  ((s.head + W64 - s.tail) % W64) &&& s.mask

/-- `empty` (ring_buffer.h lines 98-101). -/
def RBState.isEmpty (s : RBState T) : Bool := s.head == s.tail

/-- `capacity()` (ring_buffer.h line 103). -/
def capacity (s : RBState T) : Nat := s.cap

/-- `next_power_of_2` (ring_buffer.h lines 106-115), in 64-bit
`size_t` semantics: `n--` and the final `n + 1` can wrap. -/
def next_power_of_2 (n0 : Nat) : Nat :=
  let n := (n0 + (W64 - 1)) % W64
  let n := n ||| (n >>> 1)
  let n := n ||| (n >>> 2)
  let n := n ||| (n >>> 4)
  let n := n ||| (n >>> 8)
  let n := n ||| (n >>> 16)
  let n := n ||| (n >>> 32)
  (n + 1) % W64

/-- The constructor (ring_buffer.h lines 21-27): capacity is
`next_power_of_2` of the requested capacity, both cursors start at 0. -/
def mkBuffer (T : Type) [Inhabited T] (c : Nat) : RBState T :=
  { cap := next_power_of_2 c, head := 0, tail := 0, data := fun _ => default }

theorem capacity_eq (s : RBState T) : capacity s = s.cap := rfl

theorem capacity_mkBuffer (T : Type) [Inhabited T] (c : Nat) :
    capacity (mkBuffer T c) = next_power_of_2 c := by
  rw [capacity_eq]
  exact rfl

/-- Well-formedness of a ring-buffer state: capacity is a power of two
fitting in `size_t`, and both cursors are in range (as established by
the constructor and preserved by every operation). -/
def validRB (s : RBState T) : Prop :=
  (∃ k, k ≤ 64 ∧ s.cap = 2 ^ k) ∧ s.head < s.cap ∧ s.tail < s.cap

/-- The bit-smearing cascade of `next_power_of_2`, as an iterated
or-with-shift: `smearN n j` or-accumulates shifts by `1, 2, ..., 2^(j-1)`. -/
def smearN (n : Nat) : Nat → Nat
  | 0 => n
  | j + 1 => smearN n j ||| (smearN n j >>> 2 ^ j)

theorem next_power_of_2_eq_smear (c : Nat) :
    next_power_of_2 c = (smearN ((c + (W64 - 1)) % W64) 6 + 1) % W64 := rfl

/-- Masking with `2^k - 1` is reduction mod `2^k`. -/
theorem land_two_pow_sub_one (x k : Nat) : x &&& (2 ^ k - 1) = x % 2 ^ k := by
  apply Nat.eq_of_testBit_eq
  intro i
  simp [Nat.testBit_and, Nat.testBit_two_pow_sub_one, Nat.testBit_mod_two_pow,
    Bool.and_comm]

/-- A set bit of `smearN n j` at position `i` is a set bit of `n` at
some position `i + k` with `k < 2^j`. -/
theorem smearN_testBit (n : Nat) :
    ∀ j i, (smearN n j).testBit i = true ↔
      ∃ k, k < 2 ^ j ∧ n.testBit (i + k) = true := by
  intro j
  induction j with
  | zero =>
    intro i
    constructor
    · intro h; exact ⟨0, by omega, by simpa using h⟩
    · rintro ⟨k, hk, h⟩
      have hk0 : k = 0 := by omega
      simpa [smearN, hk0] using h
  | succ j ih =>
    intro i
    constructor
    · intro h
      rw [smearN, Nat.testBit_or, Bool.or_eq_true] at h
      rcases h with h | h
      · rcases (ih i).mp h with ⟨k, hk, hb⟩
        exact ⟨k, by have := Nat.pow_lt_pow_succ (a := 2) (by omega) (n := j); omega, hb⟩
      · rw [Nat.testBit_shiftRight] at h
        rcases (ih (2 ^ j + i)).mp h with ⟨k, hk, hb⟩
        refine ⟨2 ^ j + k, by rw [pow_succ]; omega, ?_⟩
        have : i + (2 ^ j + k) = 2 ^ j + i + k := by omega
        rw [this]; exact hb
    · rintro ⟨k, hk, hb⟩
      rw [smearN, Nat.testBit_or, Bool.or_eq_true]
      by_cases hsmall : k < 2 ^ j
      · exact Or.inl ((ih i).mpr ⟨k, hsmall, hb⟩)
      · right
        rw [Nat.testBit_shiftRight]
        refine (ih (2 ^ j + i)).mpr ⟨k - 2 ^ j, ?_, ?_⟩
        · rw [pow_succ] at hk; omega
        · have : 2 ^ j + i + (k - 2 ^ j) = i + k := by omega
          rw [this]; exact hb

/-- For `n ≥ 1`, the top bit (position `size n - 1`) of `n` is set. -/
theorem testBit_size_sub_one (n : Nat) (hn : 0 < n) :
    n.testBit (n.size - 1) = true := by
  have hs : 0 < n.size := Nat.size_pos.mpr hn
  have h1 : 2 ^ (n.size - 1) ≤ n := Nat.lt_size.mp (by omega)
  have h2 : n < 2 ^ n.size := Nat.lt_size_self n
  have hsz : n.size = (n.size - 1) + 1 := by omega
  rw [hsz, pow_succ] at h2
  rw [Nat.testBit_to_div_mod]
  have hdiv : n / 2 ^ (n.size - 1) = 1 :=
    Nat.div_eq_of_lt_le (by simpa using h1) (by omega)
  simp [hdiv]

/-- The 6-step smear of `n < 2^64` fills in all bits below the top
one: it equals `2 ^ n.size - 1`. -/
theorem smearN_six (n : Nat) (hn : n < W64) : smearN n 6 = 2 ^ n.size - 1 := by
  apply Nat.eq_of_testBit_eq
  intro i
  rw [Nat.testBit_two_pow_sub_one]
  have hchar := smearN_testBit n 6 i
  by_cases hi : i < n.size
  · have hpos : 0 < n := by
      rcases Nat.eq_zero_or_pos n with h0 | h
      · simp [h0, Nat.size_zero] at hi
      · exact h
    have hsz64 : n.size ≤ 64 := Nat.size_le.mpr hn
    have htop := testBit_size_sub_one n hpos
    have : (smearN n 6).testBit i = true := by
      refine hchar.mpr ⟨n.size - 1 - i, ?_, ?_⟩
      · show n.size - 1 - i < 2 ^ 6
        omega
      · have : i + (n.size - 1 - i) = n.size - 1 := by omega
        rw [this]; exact htop
    simp [this, hi]
  · have : (smearN n 6).testBit i = false := by
      rcases h : (smearN n 6).testBit i with _ | _
      · rfl
      · exfalso
        rcases hchar.mp h with ⟨k, _, hb⟩
        have : 2 ^ (i + k) ≤ n := Nat.testBit_implies_ge hb
        have : i + k < n.size := Nat.lt_size.mpr this
        omega
    simp [this, hi]

/-- For requested capacities `1 ≤ c ≤ 2^63`, `next_power_of_2 c`
computes `2 ^ (c-1).size`, with no wraparound. -/
theorem next_power_of_2_eq (c : Nat) (h1 : 1 ≤ c) (h2 : c ≤ 2 ^ 63) :
    next_power_of_2 c = 2 ^ (c - 1).size := by
  rw [next_power_of_2_eq_smear]
  have hW : W64 = 2 ^ 64 := rfl
  have hn : (c + (W64 - 1)) % W64 = c - 1 := by rw [hW]; omega
  rw [hn]
  have hlt : c - 1 < W64 := by rw [hW]; omega
  rw [smearN_six (c - 1) hlt]
  have hsz : (c - 1).size ≤ 63 := Nat.size_le.mpr (by rw [show (2:Nat) ^ 63 = 2 ^ 63 from rfl]; omega)
  have hpow : 2 ^ (c - 1).size ≤ 2 ^ 63 := Nat.pow_le_pow_right (by omega) hsz
  have hpos : 0 < 2 ^ (c - 1).size := Nat.pos_pow_of_pos _ (by omega)
  have : 2 ^ (c - 1).size - 1 + 1 = 2 ^ (c - 1).size := by omega
  rw [this, Nat.mod_eq_of_lt (by rw [hW]; omega)]

/-- Occupancy of a ring buffer: `(head − tail) mod capacity` rendered
in `Nat` as `(head + cap − tail) % cap`. -/
def occ (s : RBState T) : Nat := (s.head + s.cap - s.tail) % s.cap

/-- The `size_t` expression `(head - tail) & mask_` agrees with the
mathematical `(head + cap − tail) % cap` on in-range cursors. -/
theorem size_t_sub_mask (cap k head tail : Nat) (hk : k ≤ 64) (hcap : cap = 2 ^ k)
    (_hh : head < cap) (ht : tail < cap) :
    ((head + W64 - tail) % W64) &&& (cap - 1) = (head + cap - tail) % cap := by
  have hdvd : cap ∣ W64 := by
    rw [hcap]; exact pow_dvd_pow 2 hk
  have hWpos : 0 < W64 := by decide
  have hcapW : cap ≤ W64 := Nat.le_of_dvd hWpos hdvd
  conv_lhs => rw [hcap, land_two_pow_sub_one, ← hcap]
  rw [Nat.mod_mod_of_dvd _ hdvd]
  obtain ⟨m, hm⟩ := Nat.dvd_sub' hdvd (dvd_refl cap)
  have hsplit : head + W64 - tail = (head + cap - tail) + cap * m := by omega
  rw [hsplit, Nat.add_mul_mod_self_left]

theorem size_eq_occ (s : RBState T) (hs : validRB s) : s.size = occ s := by
  obtain ⟨⟨k, hk, hcap⟩, hh, ht⟩ := hs
  exact size_t_sub_mask s.cap k s.head s.tail hk hcap hh ht

/-- Occupancy without the modulus, by cases on the cursor order. -/
theorem occ_char (s : RBState T) (hs : validRB s) :
    occ s = if s.tail ≤ s.head then s.head - s.tail else s.head + s.cap - s.tail := by
  obtain ⟨⟨k, hk, hcap⟩, hh, ht⟩ := hs
  have hpos : 0 < s.cap := by rw [hcap]; positivity
  unfold occ
  rcases Nat.lt_or_ge s.head s.tail with hlt | hge
  · rw [Nat.mod_eq_of_lt (by omega)]
    simp [Nat.not_le.mpr hlt]
  · have h1 : s.head + s.cap - s.tail = (s.head - s.tail) + s.cap := by omega
    rw [h1, Nat.add_mod_right, Nat.mod_eq_of_lt (by omega)]
    simp [hge]

theorem occ_lt (s : RBState T) (hs : validRB s) : occ s < s.cap := by
  obtain ⟨⟨k, _, hcap⟩, _, _⟩ := hs
  exact Nat.mod_lt _ (by rw [hcap]; positivity)

/-- The full test `(head + 1) & mask == tail` fires exactly at
occupancy `cap − 1`. -/
theorem push_full_iff (s : RBState T) (hs : validRB s) :
    (s.head + 1) % s.cap = s.tail ↔ occ s = s.cap - 1 := by
  obtain ⟨⟨k, hk, hcap⟩, hh, ht⟩ := hs
  rw [occ_char s ⟨⟨k, hk, hcap⟩, hh, ht⟩]
  by_cases hc : s.head + 1 = s.cap
  · rw [hc, Nat.mod_self]
    constructor
    · intro h; simp [← h]; omega
    · intro h; split at h <;> omega
  · rw [Nat.mod_eq_of_lt (by omega)]
    constructor
    · intro h; split at * <;> omega
    · intro h; split at h <;> omega

/-- `try_push` in terms of the modulus: failure test and the
successful postcondition. -/
theorem try_push_char (s : RBState T) (x : T) (hs : validRB s) :
    ((try_push s x).1 = false ↔ (s.head + 1) % s.cap = s.tail) ∧
    ((try_push s x).1 = false → (try_push s x).2 = s) ∧
    ((try_push s x).1 = true →
      (try_push s x).2 = { s with head := (s.head + 1) % s.cap
                                  data := fun i => if i = s.head then x else s.data i }) := by
  obtain ⟨⟨k, hk, hcap⟩, hh, ht⟩ := hs
  have hmask : (s.head + 1) &&& s.mask = (s.head + 1) % s.cap := by
    show (s.head + 1) &&& (s.cap - 1) = _
    rw [hcap, land_two_pow_sub_one]
  unfold try_push
  rw [hmask]
  by_cases h : (s.head + 1) % s.cap = s.tail <;> simp [h]

/-- One successful push raises the modular occupancy by one:
the pure arithmetic core. -/
theorem occ_step_nat (cap head tail : Nat) (hpos : 0 < cap) (hh : head < cap)
    (ht : tail < cap) (hne : (head + 1) % cap ≠ tail) :
    ((head + 1) % cap + cap - tail) % cap = (head + cap - tail) % cap + 1 := by
  by_cases hc : head + 1 = cap
  · rw [hc, Nat.mod_self] at hne ⊢
    have htpos : 0 < tail := by omega
    rw [Nat.mod_eq_of_lt (by omega)]
    have h1 : head + cap - tail = (head - tail) + cap := by omega
    rw [h1, Nat.add_mod_right, Nat.mod_eq_of_lt (by omega)]
    omega
  · rw [Nat.mod_eq_of_lt (show head + 1 < cap by omega)] at hne ⊢
    rcases Nat.lt_or_ge head tail with hlt | hge
    · have hlt2 : head + 1 < tail := by omega
      rw [Nat.mod_eq_of_lt (by omega), Nat.mod_eq_of_lt (by omega)]
      omega
    · have h1 : head + 1 + cap - tail = (head + 1 - tail) + cap := by omega
      have h2 : head + cap - tail = (head - tail) + cap := by omega
      rw [h1, h2, Nat.add_mod_right, Nat.add_mod_right,
        Nat.mod_eq_of_lt (by omega), Nat.mod_eq_of_lt (by omega)]
      omega

theorem try_push_valid (s : RBState T) (x : T) (hs : validRB s) :
    validRB (try_push s x).2 ∧ (try_push s x).2.cap = s.cap ∧
    ((try_push s x).1 = true → occ (try_push s x).2 = occ s + 1) := by
  obtain ⟨htest, hfail, hsucc⟩ := try_push_char s x hs
  obtain ⟨⟨k, hk, hcap⟩, hh, ht⟩ := hs
  have hpos : 0 < s.cap := by rw [hcap]; positivity
  rcases hres : (try_push s x).1 with _ | _
  · rw [hfail hres]
    exact ⟨⟨⟨k, hk, hcap⟩, hh, ht⟩, rfl,
      fun h => absurd h (by decide)⟩
  · have hg := hsucc hres
    have hne : (s.head + 1) % s.cap ≠ s.tail := by
      intro h
      have h2 := htest.mpr h
      rw [hres] at h2
      cases h2
    refine ⟨?_, ?_, fun _ => ?_⟩
    · rw [hg]
      exact ⟨⟨k, hk, hcap⟩, Nat.mod_lt _ hpos, ht⟩
    · rw [hg]
    · rw [hg]
      show ((s.head + 1) % s.cap + s.cap - s.tail) % s.cap = occ s + 1
      exact occ_step_nat s.cap s.head s.tail hpos hh ht hne

theorem try_pop_char (s : RBState T) (hs : validRB s) :
    ((try_pop s).1 = none ↔ s.tail = s.head) ∧
    ((try_pop s).1 = none → (try_pop s).2 = s) ∧
    (s.tail ≠ s.head →
      (try_pop s).1 = some (s.data s.tail) ∧
      (try_pop s).2 = { s with tail := (s.tail + 1) % s.cap }) := by
  obtain ⟨⟨k, hk, hcap⟩, hh, ht⟩ := hs
  have hmask : (s.tail + 1) &&& s.mask = (s.tail + 1) % s.cap := by
    show (s.tail + 1) &&& (s.cap - 1) = _
    rw [hcap, land_two_pow_sub_one]
  unfold try_pop
  rw [hmask]
  by_cases h : s.tail = s.head <;> simp [h]

theorem try_pop_valid (s : RBState T) (hs : validRB s) :
    validRB (try_pop s).2 ∧ (try_pop s).2.cap = s.cap := by
  obtain ⟨hnone, hid, hsome⟩ := try_pop_char s hs
  obtain ⟨⟨k, hk, hcap⟩, hh, ht⟩ := hs
  have hpos : 0 < s.cap := by rw [hcap]; positivity
  by_cases h : s.tail = s.head
  · rw [hid (by simp [try_pop, h])]
    exact ⟨⟨⟨k, hk, hcap⟩, hh, ht⟩, rfl⟩
  · rw [(hsome h).2]
    exact ⟨⟨⟨k, hk, hcap⟩, hh, Nat.mod_lt _ hpos⟩, rfl⟩

/-- `pushAll xs s`: push the items of `xs` in order; `none` as soon
as one `try_push` fails (no pops in between). -/
def pushAll (xs : List T) (s : RBState T) : Option (RBState T) :=
  match xs with
  | [] => some s
  | x :: rest =>
    match try_push s x with
    | (true, s') => pushAll rest s'
    | (false, _) => none

theorem pushAll_occ (xs : List T) :
    ∀ s s' : RBState T, validRB s → pushAll xs s = some s' →
      validRB s' ∧ occ s' = occ s + xs.length ∧ s'.cap = s.cap := by
  induction xs with
  | nil =>
    intro s s' hs h
    simp only [pushAll, Option.some.injEq] at h
    subst h
    exact ⟨hs, by simp, rfl⟩
  | cons x rest ih =>
    intro s s' hs h
    obtain ⟨hv, hcapeq, hstep⟩ := try_push_valid s x hs
    simp only [pushAll] at h
    rcases hres : try_push s x with ⟨b, s1⟩
    rw [hres] at h
    rcases b with _ | _
    · simp at h
    · have hv1 : validRB s1 := by rw [show s1 = (try_push s x).2 by rw [hres]]; exact hv
      obtain ⟨hv', hocc', hcap'⟩ := ih s1 s' hv1 h
      refine ⟨hv', ?_, ?_⟩
      · have : occ s1 = occ s + 1 := by
          rw [show s1 = (try_push s x).2 by rw [hres]]
          exact hstep (by rw [hres])
        rw [hocc', this]
        simp [List.length_cons]
        omega
      · rw [hcap']
        rw [show s1 = (try_push s x).2 by rw [hres]]
        exact hcapeq

/-- The copy loop of `pop_batch` reads the slots
`cur, (cur+1) % cap, ...` in order. -/
theorem popLoop_eq (s : RBState T) (k : Nat) (hcap : s.cap = 2 ^ k) :
    ∀ n cur, cur < s.cap →
      popLoop s cur n = (List.range n).map (fun i => s.data ((cur + i) % s.cap)) := by
  intro n
  induction n with
  | zero => intro cur _; simp [popLoop]
  | succ n ih =>
    intro cur hcur
    have hpos : 0 < s.cap := by rw [hcap]; positivity
    have hmask : (cur + 1) &&& s.mask = (cur + 1) % s.cap := by
      show (cur + 1) &&& (s.cap - 1) = _
      rw [hcap, land_two_pow_sub_one]
    have hfun : ∀ i : Nat, ((cur + 1) % s.cap + i) % s.cap = (cur + (i + 1)) % s.cap := by
      intro i
      rw [Nat.mod_add_mod]
      congr 1
      omega
    rw [popLoop, hmask, ih ((cur + 1) % s.cap) (Nat.mod_lt _ hpos),
      List.range_succ_eq_map]
    simp only [List.map_cons, List.map_map, Function.comp, Function.comp_def,
      Nat.succ_eq_add_one, hfun, Nat.add_zero, Nat.mod_eq_of_lt hcur]

/-- The cursor after the copy loop of `pop_batch` is `(cur + n) % cap`. -/
theorem popCursor_eq (s : RBState T) (k : Nat) (hcap : s.cap = 2 ^ k) :
    ∀ n cur, cur < s.cap → popCursor s cur n = (cur + n) % s.cap := by
  intro n
  induction n with
  | zero => intro cur hcur; simp [popCursor, Nat.mod_eq_of_lt hcur]
  | succ n ih =>
    intro cur hcur
    have hpos : 0 < s.cap := by rw [hcap]; positivity
    have hmask : (cur + 1) &&& s.mask = (cur + 1) % s.cap := by
      show (cur + 1) &&& (s.cap - 1) = _
      rw [hcap, land_two_pow_sub_one]
    rw [popCursor, hmask, ih ((cur + 1) % s.cap) (Nat.mod_lt _ hpos),
      Nat.mod_add_mod]
    congr 1
    omega

/-- A concrete valid ring-buffer state: capacity 2, empty. -/
def rbEmpty2 : RBState Nat := { cap := 2, head := 0, tail := 0, data := fun _ => 0 }

/-- C3 counterexample.  The claim says `pop_batch` "performs exactly
one store to the tail cursor per call", but on an empty buffer
(`head == tail`) the call returns at once and performs zero stores
to `tail_` (ring_buffer.h lines 69-71 skip the store at line 88). -/
theorem claim_C3_counterexample :
    validRB rbEmpty2 ∧ (pop_batch rbEmpty2 [] 5).2.2.2 = 0 ∧
    (pop_batch rbEmpty2 [] 5).2.2.2 ≠ 1 := by
  refine ⟨⟨⟨1, by decide, rfl⟩, by decide, by decide⟩, rfl, by decide⟩

/-- C3 (amended): for every valid ring-buffer state and every `max`,
`pop_batch(out, max)` appends exactly `min(available, max)` items to
`out` — where `available = (head − tail) mod capacity` — in FIFO slot
order starting at `tail`, advances `tail` by that count, returns the
count (0 when `head == tail`), and performs AT MOST one store to the
tail cursor: exactly one when the buffer is non-empty, zero on the
empty early-return path. -/
theorem claim_C3_pop_batch_amended (s : RBState T) (out : List T) (mc : Nat)
    (hs : validRB s) :
    (pop_batch s out mc).2.2.1 = min (occ s) mc ∧
    (pop_batch s out mc).1 =
      out ++ (List.range (min (occ s) mc)).map (fun i => s.data ((s.tail + i) % s.cap)) ∧
    (pop_batch s out mc).2.1.head = s.head ∧
    (pop_batch s out mc).2.1.cap = s.cap ∧
    (pop_batch s out mc).2.1.data = s.data ∧
    (pop_batch s out mc).2.1.tail = (s.tail + min (occ s) mc) % s.cap ∧
    (pop_batch s out mc).2.2.2 ≤ 1 ∧
    (s.tail ≠ s.head → (pop_batch s out mc).2.2.2 = 1) ∧
    (s.tail = s.head → (pop_batch s out mc).2.2.1 = 0 ∧ (pop_batch s out mc).2.2.2 = 0) := by
  obtain ⟨⟨k, hk, hcap⟩, hh, ht⟩ := hs
  have hv : validRB s := ⟨⟨k, hk, hcap⟩, hh, ht⟩
  have hpos : 0 < s.cap := by rw [hcap]; positivity
  by_cases h : s.tail = s.head
  · have hocc0 : occ s = 0 := by
      unfold occ
      rw [h, show s.head + s.cap - s.head = s.cap by omega, Nat.mod_self]
    have hmin : min (occ s) mc = 0 := by rw [hocc0]; exact Nat.zero_min mc
    have hpb : pop_batch s out mc = (out, s, 0, 0) := by
      simp [pop_batch, h]
    rw [hpb, hmin]
    refine ⟨rfl, by simp, rfl, rfl, rfl, ?_, by show (0:Nat) ≤ 1; omega,
      fun hne => absurd h hne, fun _ => ⟨rfl, rfl⟩⟩
    show s.tail = (s.tail + 0) % s.cap
    simp [Nat.mod_eq_of_lt ht]
  · have havail : (if s.head < s.tail then s.cap - s.tail + s.head
        else ((s.head + W64 - s.tail) % W64) &&& s.mask) = occ s := by
      by_cases hlt : s.head < s.tail
      · rw [if_pos hlt, occ_char s hv]
        rw [if_neg (Nat.not_le.mpr hlt)]
        omega
      · rw [if_neg hlt]
        show ((s.head + W64 - s.tail) % W64) &&& (s.cap - 1) = occ s
        exact size_t_sub_mask s.cap k s.head s.tail hk hcap hh ht
    have hloop := popLoop_eq s k hcap (min (occ s) mc) s.tail ht
    have hcur := popCursor_eq s k hcap (min (occ s) mc) s.tail ht
    have hpb : pop_batch s out mc =
        (out ++ popLoop s s.tail (min (occ s) mc),
         { s with tail := popCursor s s.tail (min (occ s) mc) }, min (occ s) mc, 1) := by
      simp only [pop_batch, if_neg h]
      rw [havail]
    rw [hpb]
    refine ⟨rfl, by rw [hloop], rfl, rfl, rfl, ?_, by show (1:Nat) ≤ 1; omega,
      fun _ => rfl, fun heq => absurd heq h⟩
    show popCursor s s.tail (min (occ s) mc) = (s.tail + min (occ s) mc) % s.cap
    rw [hcur]

/-- C6: `try_push` fails exactly when the incremented head would
collide with `tail`, and otherwise installs the item at `head` and
publishes the new head; `try_pop` is empty exactly when
`head == tail`, and otherwise moves out the item at `tail` and
publishes the new tail (ring_buffer.h lines 33-60). -/
theorem claim_C6_try_push_pop (s : RBState T) (x : T) (hs : validRB s) :
    ((try_push s x).1 = false ↔ (s.head + 1) % s.cap = s.tail) ∧
    ((try_push s x).1 = false → (try_push s x).2 = s) ∧
    ((try_push s x).1 = true →
      (try_push s x).2.data s.head = x ∧
      (try_push s x).2.head = (s.head + 1) % s.cap ∧
      (try_push s x).2.tail = s.tail ∧
      (try_push s x).2.cap = s.cap ∧
      ∀ i, i ≠ s.head → (try_push s x).2.data i = s.data i) ∧
    ((try_pop s).1 = none ↔ s.head = s.tail) ∧
    ((try_pop s).1 = none → (try_pop s).2 = s) ∧
    (s.head ≠ s.tail →
      (try_pop s).1 = some (s.data s.tail) ∧
      (try_pop s).2.tail = (s.tail + 1) % s.cap ∧
      (try_pop s).2.head = s.head ∧
      (try_pop s).2.data = s.data ∧
      (try_pop s).2.cap = s.cap) := by
  obtain ⟨htest, hfail, hsucc⟩ := try_push_char s x hs
  obtain ⟨hnone, hid, hsome⟩ := try_pop_char s hs
  refine ⟨htest, hfail, fun h => ?_, ?_, hid, fun h => ?_⟩
  · rw [hsucc h]
    exact ⟨by simp, rfl, rfl, rfl, fun i hi => by simp [hi]⟩
  · rw [hnone]
    exact eq_comm
  · obtain ⟨h1, h2⟩ := hsome (Ne.symm h)
    rw [h2]
    exact ⟨h1, rfl, rfl, rfl, rfl⟩

/-- C6 witness at a concrete state. -/
theorem claim_C6_witness : (try_pop rbEmpty2).1 = none :=
  (claim_C6_try_push_pop rbEmpty2 7
    ⟨⟨1, by decide, rfl⟩, by decide, by decide⟩).2.2.2.1.mpr rfl

/-- C7 counterexample.  The claim quantifies over every requested
capacity `c ≥ 1`, but `next_power_of_2` runs in `size_t` arithmetic:
at `c = 2^63 + 1` the bit smear yields `2^64 - 1` and the final `n + 1`
wraps to 0, so the constructed buffer's `capacity()` is 0 — not a
power of two and not `≥ c`. -/
theorem claim_C7_counterexample :
    capacity (mkBuffer Unit (2 ^ 63 + 1)) = 0 ∧
    (∀ k : Nat, capacity (mkBuffer Unit (2 ^ 63 + 1)) ≠ 2 ^ k) ∧
    ¬(2 ^ 63 + 1 ≤ capacity (mkBuffer Unit (2 ^ 63 + 1))) := by
  have h : capacity (mkBuffer Unit (2 ^ 63 + 1)) = 0 := by decide
  refine ⟨h, fun k => ?_, ?_⟩
  · rw [h]
    exact (pow_pos (by omega : (0:Nat) < 2) k).ne
  · rw [h]
    intro hc
    exact Nat.succ_ne_zero _ (Nat.le_zero.mp hc)

/-- C7 (amended): for every requested capacity `1 ≤ c ≤ 2^63` (so the
64-bit increment cannot wrap), the constructed buffer's `capacity()`
is the least power of two `≥ c`; in particular requesting 100000
yields 131072. -/
theorem claim_C7_amended {T : Type} [Inhabited T] (c : Nat)
    (h1 : 1 ≤ c) (h2 : c ≤ 2 ^ 63) :
    (∃ k, capacity (mkBuffer T c) = 2 ^ k) ∧
    c ≤ capacity (mkBuffer T c) ∧
    (∀ j, c ≤ 2 ^ j → capacity (mkBuffer T c) ≤ 2 ^ j) ∧
    capacity (mkBuffer T 100000) = 131072 := by
  have hc : capacity (mkBuffer T c) = 2 ^ (c - 1).size := by
    rw [capacity_mkBuffer]
    exact next_power_of_2_eq c h1 h2
  refine ⟨⟨(c - 1).size, hc⟩, ?_, ?_, ?_⟩
  · rw [hc]
    have := Nat.lt_size_self (c - 1)
    omega
  · intro j hj
    rw [hc]
    exact Nat.pow_le_pow_right (by omega) (Nat.size_le.mpr (by omega))
  · rw [capacity_mkBuffer]
    decide

/-- C7 witness: the amended theorem applied at `c = 100000`. -/
theorem claim_C7_amended_witness :
    100000 ≤ capacity (mkBuffer Unit 100000) ∧
    capacity (mkBuffer Unit 100000) = 131072 :=
  ⟨(claim_C7_amended (T := Unit) 100000 (by decide) (by decide)).2.1,
   (claim_C7_amended (T := Unit) 100000 (by decide) (by decide)).2.2.2⟩

/-- C10: for a buffer constructed with requested capacity
`1 ≤ creq ≤ 2^63`, with `c = capacity()`: construction gives a valid
state; on every valid state of that capacity `size()` is at most
`c - 1`, `try_push` fails as soon as the occupancy has reached
`c - 1`, both operations preserve validity and capacity, and `c`
consecutive successful pushes without a pop are impossible. -/
theorem claim_C10_capacity_minus_one {T : Type} [Inhabited T] (creq : Nat)
    (h1 : 1 ≤ creq) (h2 : creq ≤ 2 ^ 63) :
    validRB (mkBuffer T creq) ∧
    (∀ s : RBState T, validRB s → s.cap = capacity (mkBuffer T creq) →
      s.size ≤ s.cap - 1 ∧
      (s.size = s.cap - 1 → ∀ x, (try_push s x).1 = false) ∧
      (∀ x, validRB (try_push s x).2 ∧ (try_push s x).2.cap = s.cap) ∧
      (validRB (try_pop s).2 ∧ (try_pop s).2.cap = s.cap) ∧
      (∀ xs : List T, xs.length = s.cap → pushAll xs s = none)) := by
  have hcap : (mkBuffer T creq).cap = 2 ^ (creq - 1).size := by
    rw [← capacity_eq, capacity_mkBuffer]
    exact next_power_of_2_eq creq h1 h2
  have hhd : (mkBuffer T creq).head = 0 := rfl
  have htl : (mkBuffer T creq).tail = 0 := rfl
  constructor
  · refine ⟨⟨(creq - 1).size, ?_, hcap⟩, ?_, ?_⟩
    · have : (creq - 1).size ≤ 63 := Nat.size_le.mpr (by omega)
      omega
    · rw [hhd, hcap]
      positivity
    · rw [htl, hcap]
      positivity
  · intro s hs _
    have hsize := size_eq_occ s hs
    have hocclt := occ_lt s hs
    have hcappos : 0 < s.cap := by
      obtain ⟨⟨k, _, hcap⟩, _, _⟩ := hs
      rw [hcap]; positivity
    refine ⟨by omega, ?_, ?_, ?_, ?_⟩
    · intro hfullsz x
      have hfull : occ s = s.cap - 1 := by omega
      exact (try_push_char s x hs).1.mpr ((push_full_iff s hs).mpr hfull)
    · intro x
      obtain ⟨hv, hc, _⟩ := try_push_valid s x hs
      exact ⟨hv, hc⟩
    · exact try_pop_valid s hs
    · intro xs hlen
      cases heq : pushAll xs s with
      | none => rfl
      | some s' =>
        exfalso
        obtain ⟨hv', hocc', _⟩ := pushAll_occ xs s s' hs heq
        have := occ_lt s' hv'
        have hcap' := (pushAll_occ xs s s' hs heq).2.2
        rw [hcap'] at this
        omega

/-- C10 witness: four pushes into a capacity-4 buffer cannot all
succeed. -/
theorem claim_C10_witness :
    validRB (mkBuffer Unit 4) ∧ pushAll [(), (), (), ()] (mkBuffer Unit 4) = none := by
  have h := claim_C10_capacity_minus_one (T := Unit) 4 (by decide) (by decide)
  exact ⟨h.1, (h.2 (mkBuffer Unit 4) h.1 rfl).2.2.2.2 [(), (), (), ()] (by decide)⟩

/-! ## Log entries and payload decoding (`log_entry.h`,
`redis_consumer.cpp` lines 203-254) -/

/-- `LogEntry` (log_entry.h lines 11-28): nine string fields;
`redis_id` is the upstream message id used for acknowledgment. -/
structure LogEntry where
  app_id : String
  message : String
  source : String
  level : String
  environment : String
  metadata : String
  trace_id : String
  user_id : String
  redis_id : String
deriving Inhabited, DecidableEq, Repr

/-- `std::string::find(needle, start)`: index of the first occurrence
of `needle` at or after `start`, if any. -/
def strFind (hay needle : List Char) (start : Nat) : Option Nat :=
  (List.range (hay.length + 1)).find?
    (fun i => decide (start ≤ i) && needle.isPrefixOf (hay.drop i))

/-- The escape-skipping loop of `extract_json_value`
(redis_consumer.cpp lines 213-216): while the character before the
closing quote is a backslash, look for the next quote.  The fuel
bounds the iteration count; each step strictly increases the index,
so fuel `json.length + 1` is never exhausted at the call site. -/
def skipEsc (json : List Char) : Nat → Nat → Option Nat
  | _, 0 => none
  | e, fuel + 1 =>
    if 0 < e ∧ json.getD (e - 1) ' ' = '\\' then
      match strFind json ['\"'] (e + 1) with
      | none => none
      | some e2 => skipEsc json e2 fuel
    else some e

/-- `extract_json_value` (redis_consumer.cpp lines 204-219): locate
`"key":"`, then the closing unescaped quote; return the characters in
between, or the empty string on any failure. -/
def extract_json_value (json key : List Char) : List Char :=
  let search := '\"' :: (key ++ ['\"', ':', '\"'])
  match strFind json search 0 with
  | none => []
  | some pos0 =>
    let pos := pos0 + search.length
    match strFind json ['\"'] pos with
    | none => []
    | some e =>
      match skipEsc json e (json.length + 1) with
      | none => []
      | some e2 => (json.drop pos).take (e2 - pos)

/-- `extract_json_value` on `String`s. -/
def extractStr (json key : String) : String :=
  String.mk (extract_json_value json.data key.data)

/-- `RedisConsumer::parse_message` (redis_consumer.cpp lines
221-254): decode the eight recognized keys with their fall-back
defaults; `level` is coerced into the allowed set. -/
def parse_message (json_data msg_id : String) : LogEntry :=
  let app_id0 := extractStr json_data "appId"
  let app_id := if app_id0 = "" then "unknown" else app_id0
  let message0 := extractStr json_data "message"
  let message := if message0 = "" then "empty" else message0
  let source0 := extractStr json_data "source"
  let source := if source0 = "" then "unknown" else source0
  let level0 := extractStr json_data "level"
  let level :=
    if level0 = "" ∨ (level0 ≠ "DEBUG" ∧ level0 ≠ "INFO" ∧ level0 ≠ "WARN" ∧
        level0 ≠ "ERROR" ∧ level0 ≠ "FATAL") then "INFO" else level0
  let environment0 := extractStr json_data "environment"
  let environment := if environment0 = "" then "development" else environment0
  let trace_id := extractStr json_data "traceId"
  let user_id := extractStr json_data "userId"
  let metadata0 := extractStr json_data "metadataString"
  let metadata := if metadata0 = "" then "\x7b\x7d" else metadata0
  { app_id := app_id, message := message, source := source, level := level,
    environment := environment, metadata := metadata, trace_id := trace_id,
    user_id := user_id, redis_id := msg_id }

/-- C5: `parse_message` applies the documented defaults: `level`
becomes `INFO` whenever the extracted level is missing/empty or
outside DEBUG|INFO|WARN|ERROR|FATAL; `app_id`, `message`, `source`,
`environment`, `metadata` fall back to `unknown`, `empty`, `unknown`,
`development`, the empty JSON object whenever extraction yields the
empty string (which covers a missing key and an empty value);
`trace_id`/`user_id` are the raw extractions, hence default to the
empty string. -/
theorem claim_C5_parse_defaults (json mid : String) :
    ((extractStr json "level" = "" ∨
        extractStr json "level" ∉ (["DEBUG", "INFO", "WARN", "ERROR", "FATAL"] : List String)) →
      (parse_message json mid).level = "INFO") ∧
    (extractStr json "level" ∈ (["DEBUG", "INFO", "WARN", "ERROR", "FATAL"] : List String) →
      (parse_message json mid).level = extractStr json "level") ∧
    (extractStr json "appId" = "" → (parse_message json mid).app_id = "unknown") ∧
    (extractStr json "message" = "" → (parse_message json mid).message = "empty") ∧
    (extractStr json "source" = "" → (parse_message json mid).source = "unknown") ∧
    (extractStr json "environment" = "" →
      (parse_message json mid).environment = "development") ∧
    (extractStr json "metadataString" = "" →
      (parse_message json mid).metadata = "\x7b\x7d") ∧
    (parse_message json mid).trace_id = extractStr json "traceId" ∧
    (parse_message json mid).user_id = extractStr json "userId" ∧
    (parse_message json mid).redis_id = mid := by
  refine ⟨?_, ?_, ?_, ?_, ?_, ?_, ?_, rfl, rfl, rfl⟩
  · intro h
    show (if extractStr json "level" = "" ∨ _ then "INFO" else _) = "INFO"
    rw [if_pos]
    rcases h with h | h
    · exact Or.inl h
    · right
      simp only [List.mem_cons, List.mem_singleton] at h
      push_neg at h
      simp [h]
  · intro h
    have hne : ¬(extractStr json "level" = "" ∨ (extractStr json "level" ≠ "DEBUG" ∧
        extractStr json "level" ≠ "INFO" ∧ extractStr json "level" ≠ "WARN" ∧
        extractStr json "level" ≠ "ERROR" ∧ extractStr json "level" ≠ "FATAL")) := by
      simp only [List.mem_cons, List.not_mem_nil, or_false] at h
      rcases h with h | h | h | h | h <;> simp [h]
    show (if extractStr json "level" = "" ∨ _ then "INFO" else _) = extractStr json "level"
    rw [if_neg hne]
  · intro h
    show (if extractStr json "appId" = "" then "unknown" else _) = "unknown"
    rw [if_pos h]
  · intro h
    show (if extractStr json "message" = "" then "empty" else _) = "empty"
    rw [if_pos h]
  · intro h
    show (if extractStr json "source" = "" then "unknown" else _) = "unknown"
    rw [if_pos h]
  · intro h
    show (if extractStr json "environment" = "" then "development" else _) = "development"
    rw [if_pos h]
  · intro h
    show (if extractStr json "metadataString" = "" then "\x7b\x7d" else _) = "\x7b\x7d"
    rw [if_pos h]

/-- C5 witness: on the empty payload every extraction is empty, so
every default fires. -/
theorem claim_C5_witness :
    (parse_message "" "1-1").level = "INFO" ∧
    (parse_message "" "1-1").app_id = "unknown" ∧
    (parse_message "" "1-1").metadata = "\x7b\x7d" :=
  ⟨(claim_C5_parse_defaults "" "1-1").1 (Or.inl (by decide)),
   (claim_C5_parse_defaults "" "1-1").2.2.1 (by decide),
   (claim_C5_parse_defaults "" "1-1").2.2.2.2.2.2.1 (by decide)⟩

/-! ## Stream consumer dispatch (`redis_consumer.cpp` lines 70-201
and 291-379)

A decoded upstream reply is modelled from the message level down: a
message has an id and a flat field list (already paired; the C++
code walks `fields->element[j], element[j+1]` with `j += 2`).  The
nil / wrong-type reply guards of the C++ code all land in the
"no messages" case and contribute count 0. -/

/-- One stream message: id (`msg->element[0]`) and its field pairs. -/
structure StreamMsg where
  id : String
  fields : List (String × String)
deriving Inhabited

instance [Inhabited T] : Inhabited (RBState T) :=
  ⟨{ cap := 1, head := 0, tail := 0, data := fun _ => default }⟩

/-- The buffer-full test of `try_push` (ring_buffer.h line 37). -/
def pushFull (b : RBState T) : Prop := (b.head + 1) &&& b.mask = b.tail

instance (b : RBState T) : Decidable (pushFull b) :=
  inferInstanceAs (Decidable ((b.head + 1) &&& b.mask = b.tail))

theorem try_push_cases (b : RBState T) (e : T) :
    ((try_push b e).1 = false ↔ pushFull b) ∧
    (pushFull b → try_push b e = (false, b)) ∧
    (¬pushFull b → try_push b e =
      (true, { b with data := fun i => if i = b.head then e else b.data i
                      head := (b.head + 1) &&& b.mask })) := by
  unfold try_push pushFull
  by_cases h : (b.head + 1) &&& b.mask = b.tail <;> simp [h]

/-- The round-robin do-while loop of `read_batch` / `recover_pending`
(redis_consumer.cpp lines 170-178 and 356-364): try the buffer at
`cur`; on success advance the index and stop; on failure advance and
try the next, for `fuel` attempts in total (the C++ loop stops when
the index returns to its start value, i.e. after `buffers.size()`
attempts). -/
def probe [Inhabited T] (e : T) (bufs : List (RBState T)) :
    Nat → Nat → Bool × List (RBState T) × Nat
  | cur, 0 => (false, bufs, cur)
  | cur, fuel + 1 =>
    let r := try_push (bufs.getD cur default) e
    if r.1 then (true, bufs.set cur r.2, (cur + 1) % bufs.length)
    else probe e bufs ((cur + 1) % bufs.length) fuel

/-- On an all-full buffer list the probe loop fails, leaves the
buffers untouched and walks the index forward `fuel` steps. -/
theorem probe_allFull [Inhabited T] (e : T) (bufs : List (RBState T))
    (hb : ∀ b ∈ bufs, pushFull b) :
    ∀ fuel cur, cur < bufs.length →
      probe e bufs cur fuel = (false, bufs, (cur + fuel) % bufs.length) := by
  intro fuel
  induction fuel with
  | zero =>
    intro cur hcur
    simp [probe, Nat.mod_eq_of_lt hcur]
  | succ fuel ih =>
    intro cur hcur
    have hpos : 0 < bufs.length := by omega
    have hmem : bufs.getD cur default ∈ bufs := by
      rw [List.getD_eq_getElem bufs default hcur]
      exact List.getElem_mem hcur
    have hfull := hb _ hmem
    have hfail := (try_push_cases (bufs.getD cur default) e).2.1 hfull
    show (let r := try_push (bufs.getD cur default) e
          if r.1 then (true, bufs.set cur r.2, (cur + 1) % bufs.length)
          else probe e bufs ((cur + 1) % bufs.length) fuel) =
      (false, bufs, (cur + (fuel + 1)) % bufs.length)
    rw [hfail]
    simp only [Bool.false_eq_true, if_false]
    rw [ih ((cur + 1) % bufs.length) (Nat.mod_lt _ hpos), Nat.mod_add_mod]
    have : cur + 1 + fuel = cur + (fuel + 1) := by omega
    rw [this]

/-- If the probe loop fails, the buffers come back unchanged, the
index has moved `fuel` steps, and every visited buffer was full. -/
theorem probe_fail_char [Inhabited T] (e : T) (bufs : List (RBState T)) :
    ∀ fuel cur, cur < bufs.length →
      ∀ b' c', probe e bufs cur fuel = (false, b', c') →
        b' = bufs ∧ c' = (cur + fuel) % bufs.length ∧
        ∀ j < fuel, pushFull (bufs.getD ((cur + j) % bufs.length) default) := by
  intro fuel
  induction fuel with
  | zero =>
    intro cur hcur b' c' h
    simp only [probe, Prod.mk.injEq] at h
    obtain ⟨-, hb, hc⟩ := h
    exact ⟨hb.symm, by subst hc; rw [Nat.add_zero, Nat.mod_eq_of_lt hcur],
      fun j hj => by omega⟩
  | succ fuel ih =>
    intro cur hcur b' c' h
    have hpos : 0 < bufs.length := by omega
    rcases hfull : decide (pushFull (bufs.getD cur default)) with _ | _
    · have hnf : ¬pushFull (bufs.getD cur default) := of_decide_eq_false hfull
      have hsucc := (try_push_cases (bufs.getD cur default) e).2.2 hnf
      simp only [probe, hsucc] at h
      simp at h
    · have hf : pushFull (bufs.getD cur default) := of_decide_eq_true hfull
      have hfail := (try_push_cases (bufs.getD cur default) e).2.1 hf
      simp only [probe, hfail] at h
      simp only [Bool.false_eq_true, if_false] at h
      obtain ⟨hb', hc', hall⟩ := ih ((cur + 1) % bufs.length) (Nat.mod_lt _ hpos) b' c' h
      refine ⟨hb', ?_, ?_⟩
      · rw [hc', Nat.mod_add_mod]
        have : cur + 1 + fuel = cur + (fuel + 1) := by omega
        rw [this]
      · intro j hj
        rcases Nat.eq_zero_or_pos j with hj0 | hjp
        · subst hj0
          rw [Nat.add_zero, Nat.mod_eq_of_lt hcur]
          exact hf
        · have := hall (j - 1) (by omega)
          rw [Nat.mod_add_mod] at this
          have harith : cur + 1 + (j - 1) = cur + j := by omega
          rw [harith] at this
          exact this

/-- If the probe loop succeeds, the buffer-list length is preserved
and the returned index is in range. -/
theorem probe_succ_char [Inhabited T] (e : T) (bufs : List (RBState T)) :
    ∀ fuel cur b' c', probe e bufs cur fuel = (true, b', c') →
      b'.length = bufs.length ∧ (0 < bufs.length → c' < bufs.length) := by
  intro fuel
  induction fuel with
  | zero =>
    intro cur b' c' h
    simp [probe] at h
  | succ fuel ih =>
    intro cur b' c' h
    rcases hres : (try_push (bufs.getD cur default) e).1 with _ | _
    · simp only [probe, hres, Bool.false_eq_true, if_false] at h
      exact ih _ _ _ h
    · simp only [probe, hres, if_true, Prod.mk.injEq] at h
      obtain ⟨-, hb', hc'⟩ := h
      constructor
      · rw [← hb', List.length_set]
      · intro hpos
        rw [← hc']
        exact Nat.mod_lt _ hpos

/-- The field loop of `read_batch` (redis_consumer.cpp lines
155-191): for each `data` field, decode and round-robin dispatch;
when a dispatch finds all buffers full the loop `break`s (line 184),
skipping the remaining fields of the current message. -/
def processFields (mid : String) :
    List (String × String) → List (RBState LogEntry) → Nat →
      Nat × List (RBState LogEntry) × Nat
  | [], bufs, idx => (0, bufs, idx)
  | (k, v) :: rest, bufs, idx =>
    if k = "data" then
      let r := probe (parse_message v mid) bufs idx bufs.length
      if r.1 then
        let res := processFields mid rest r.2.1 r.2.2
        (res.1 + 1, res.2)
      else (0, r.2.1, r.2.2)
    else processFields mid rest bufs idx

/-- The field loop of `recover_pending` (redis_consumer.cpp lines
342-370): identical except that a failed dispatch does NOT break —
the loop moves on to the next field. -/
def processFieldsR (mid : String) :
    List (String × String) → List (RBState LogEntry) → Nat →
      Nat × List (RBState LogEntry) × Nat
  | [], bufs, idx => (0, bufs, idx)
  | (k, v) :: rest, bufs, idx =>
    if k = "data" then
      let r := probe (parse_message v mid) bufs idx bufs.length
      if r.1 then
        let res := processFieldsR mid rest r.2.1 r.2.2
        (res.1 + 1, res.2)
      else processFieldsR mid rest r.2.1 r.2.2
    else processFieldsR mid rest bufs idx

/-- The message loop of `read_batch` (lines 144-193): the `break` at
line 184 only leaves the field loop, so the message loop always
continues with the next message. -/
def processMsgs : List StreamMsg → List (RBState LogEntry) → Nat →
    Nat × List (RBState LogEntry) × Nat
  | [], bufs, idx => (0, bufs, idx)
  | m :: rest, bufs, idx =>
    let a := processFields m.id m.fields bufs idx
    let b := processMsgs rest a.2.1 a.2.2
    (a.1 + b.1, b.2)

/-- The message loop of `recover_pending` (lines 331-372). -/
def processMsgsR : List StreamMsg → List (RBState LogEntry) → Nat →
    Nat × List (RBState LogEntry) × Nat
  | [], bufs, idx => (0, bufs, idx)
  | m :: rest, bufs, idx =>
    let a := processFieldsR m.id m.fields bufs idx
    let b := processMsgsR rest a.2.1 a.2.2
    (a.1 + b.1, b.2)

/-- Consumer-side mutable state: the ring buffers, the rotating
index `current_buffer_idx_` and the stats counters. -/
structure ConsumerState where
  bufs : List (RBState LogEntry)
  idx : Nat
  messages_read : Nat
  parse_errors : Nat

/-- `RedisConsumer::read_batch` (lines 70-201), from the decoded
reply down: empty buffer list short-circuits; otherwise dispatch all
messages and add the count to `messages_read_` (line 199). -/
def read_batch (msgs : List StreamMsg) (st : ConsumerState) : Nat × ConsumerState :=
  if st.bufs.isEmpty then (0, st)
  else
    let r := processMsgs msgs st.bufs st.idx
    (r.1, { st with bufs := r.2.1, idx := r.2.2,
                    messages_read := st.messages_read + r.1 })

/-- `RedisConsumer::recover_pending` (lines 291-379): same shape,
but `messages_read_` is never updated. -/
def recover_pending (msgs : List StreamMsg) (st : ConsumerState) : Nat × ConsumerState :=
  if st.bufs.isEmpty then (0, st)
  else
    let r := processMsgsR msgs st.bufs st.idx
    (r.1, { st with bufs := r.2.1, idx := r.2.2 })

/-- The configuration fields consulted when building the upstream
read command. -/
structure ConsumerConfig where
  group_name : String
  consumer_name : String
  stream_key : String
  read_batch_size : Nat
  block_ms : Int
  polling_interval_ms : Int

/-- The XREADGROUP argv built by `read_batch` (lines 75-117): BLOCK
only when polling is disabled and `block_ms > 0`; cursor `>`. -/
def read_batch_argv (cfg : ConsumerConfig) : List String :=
  ["XREADGROUP", "GROUP", cfg.group_name, cfg.consumer_name] ++
  (if cfg.polling_interval_ms ≤ 0 ∧ cfg.block_ms > 0 then
    ["BLOCK", toString cfg.block_ms] else []) ++
  ["COUNT", toString cfg.read_batch_size, "STREAMS", cfg.stream_key, ">"]

/-- The XREADGROUP argv built by `recover_pending` (lines 299-314):
no BLOCK, cursor `0`. -/
def recover_pending_argv (cfg : ConsumerConfig) : List String :=
  ["XREADGROUP", "GROUP", cfg.group_name, cfg.consumer_name,
   "COUNT", toString cfg.read_batch_size, "STREAMS", cfg.stream_key, "0"]

/-- With every buffer full, both field loops dispatch nothing and
leave buffers and index unchanged. -/
theorem processFields_allFull (mid : String) (fs : List (String × String))
    (bufs : List (RBState LogEntry)) (idx : Nat)
    (hb : ∀ b ∈ bufs, pushFull b) (hidx : idx < bufs.length) :
    processFields mid fs bufs idx = (0, bufs, idx) ∧
    processFieldsR mid fs bufs idx = (0, bufs, idx) := by
  induction fs with
  | nil => exact ⟨rfl, rfl⟩
  | cons kv rest ih =>
    obtain ⟨k, v⟩ := kv
    by_cases hk : k = "data"
    · have hp := probe_allFull (parse_message v mid) bufs hb bufs.length idx hidx
      have hidx2 : (idx + bufs.length) % bufs.length = idx := by
        rw [Nat.add_mod_right, Nat.mod_eq_of_lt hidx]
      constructor
      · simp only [processFields, if_pos hk, hp, hidx2, Bool.false_eq_true, if_false]
      · simp only [processFieldsR, if_pos hk, hp, hidx2, Bool.false_eq_true, if_false]
        exact ih.2
    · constructor
      · simp only [processFields, if_neg hk]
        exact ih.1
      · simp only [processFieldsR, if_neg hk]
        exact ih.2

/-- With every buffer full, both message loops dispatch nothing. -/
theorem processMsgs_allFull (ms : List StreamMsg)
    (bufs : List (RBState LogEntry)) (idx : Nat)
    (hb : ∀ b ∈ bufs, pushFull b) (hidx : idx < bufs.length) :
    processMsgs ms bufs idx = (0, bufs, idx) ∧
    processMsgsR ms bufs idx = (0, bufs, idx) := by
  induction ms with
  | nil => exact ⟨rfl, rfl⟩
  | cons m rest ih =>
    have hf := processFields_allFull m.id m.fields bufs idx hb hidx
    constructor
    · simp only [processMsgs, hf.1, ih.1]
    · simp only [processMsgsR, hf.2, ih.2]

/-- Both field loops preserve the buffer count and keep the rotating
index in range. -/
theorem processFields_post (mid : String) (fs : List (String × String)) :
    ∀ bufs idx, idx < bufs.length →
      ((processFields mid fs bufs idx).2.1.length = bufs.length ∧
       (processFields mid fs bufs idx).2.2 < bufs.length) ∧
      ((processFieldsR mid fs bufs idx).2.1.length = bufs.length ∧
       (processFieldsR mid fs bufs idx).2.2 < bufs.length) := by
  induction fs with
  | nil => intro bufs idx hidx; exact ⟨⟨rfl, hidx⟩, ⟨rfl, hidx⟩⟩
  | cons kv rest ih =>
    obtain ⟨k, v⟩ := kv
    intro bufs idx hidx
    have hpos : 0 < bufs.length := by omega
    by_cases hk : k = "data"
    · rcases hpr : probe (parse_message v mid) bufs idx bufs.length with ⟨ok, b', c'⟩
      rcases ok with _ | _
      · obtain ⟨hb', hc', -⟩ := probe_fail_char (parse_message v mid) bufs
          bufs.length idx hidx b' c' hpr
        rw [hb'] at hpr
        have hc'lt : c' < bufs.length := by rw [hc']; exact Nat.mod_lt _ hpos
        constructor
        · simp only [processFields, if_pos hk, hpr, Bool.false_eq_true, if_false]
          exact ⟨by trivial, hc'lt⟩
        · simp only [processFieldsR, if_pos hk, hpr, Bool.false_eq_true, if_false]
          exact (ih bufs c' hc'lt).2
      · obtain ⟨hlen, hc'⟩ := probe_succ_char (parse_message v mid) bufs
          bufs.length idx b' c' hpr
        have hc'lt : c' < b'.length := by rw [hlen]; exact hc' hpos
        have := ih b' c' hc'lt
        constructor
        · simp only [processFields, if_pos hk, hpr, if_true]
          exact ⟨by rw [this.1.1, hlen], by rw [← hlen]; exact this.1.2⟩
        · simp only [processFieldsR, if_pos hk, hpr, if_true]
          exact ⟨by rw [this.2.1, hlen], by rw [← hlen]; exact this.2.2⟩
    · constructor
      · simp only [processFields, if_neg hk]
        exact (ih bufs idx hidx).1
      · simp only [processFieldsR, if_neg hk]
        exact (ih bufs idx hidx).2

/-- A failed full-rotation probe means every buffer is full. -/
theorem probe_fail_all (e : LogEntry) (bufs : List (RBState LogEntry))
    (idx : Nat) (hidx : idx < bufs.length) (b' : List (RBState LogEntry)) (c' : Nat)
    (h : probe e bufs idx bufs.length = (false, b', c')) :
    b' = bufs ∧ c' = idx ∧ ∀ b ∈ bufs, pushFull b := by
  obtain ⟨hb', hc', hall⟩ := probe_fail_char e bufs bufs.length idx hidx b' c' h
  have hpos : 0 < bufs.length := by omega
  refine ⟨hb', by rw [hc', Nat.add_mod_right, Nat.mod_eq_of_lt hidx], ?_⟩
  intro b hbmem
  obtain ⟨i, hi, hbi⟩ := List.mem_iff_getElem.mp hbmem
  have hj : (i + bufs.length - idx) % bufs.length < bufs.length := Nat.mod_lt _ hpos
  have := hall ((i + bufs.length - idx) % bufs.length) hj
  have harith : (idx + (i + bufs.length - idx) % bufs.length) % bufs.length = i := by
    rw [Nat.add_mod_mod]
    have h1 : idx + (i + bufs.length - idx) = i + bufs.length := by omega
    rw [h1, Nat.add_mod_right, Nat.mod_eq_of_lt hi]
  rw [harith] at this
  rw [← hbi, ← List.getD_eq_getElem bufs default hi]
  exact this

/-- The extensional equivalence of the two field loops: although
`read_batch` breaks out of the field loop on an all-full rotation
while `recover_pending` keeps scanning, no later dispatch can
succeed against unchanged full buffers, so counts, buffers and index
agree. -/
theorem processFields_eq (mid : String) (fs : List (String × String)) :
    ∀ bufs idx, idx < bufs.length →
      processFields mid fs bufs idx = processFieldsR mid fs bufs idx := by
  induction fs with
  | nil => intro bufs idx _; rfl
  | cons kv rest ih =>
    obtain ⟨k, v⟩ := kv
    intro bufs idx hidx
    have hpos : 0 < bufs.length := by omega
    by_cases hk : k = "data"
    · rcases hpr : probe (parse_message v mid) bufs idx bufs.length with ⟨ok, b', c'⟩
      rcases ok with _ | _
      · obtain ⟨hb', hc', hall⟩ := probe_fail_all (parse_message v mid) bufs idx hidx
          b' c' hpr
        rw [hb', hc'] at hpr
        simp only [processFields, processFieldsR, if_pos hk, hpr,
          Bool.false_eq_true, if_false]
        exact ((processFields_allFull mid rest bufs idx hall hidx).2).symm
      · obtain ⟨hlen, hc'⟩ := probe_succ_char (parse_message v mid) bufs
          bufs.length idx b' c' hpr
        have hc'lt : c' < b'.length := by rw [hlen]; exact hc' hpos
        simp only [processFields, processFieldsR, if_pos hk, hpr, if_true]
        rw [ih b' c' hc'lt]
    · simp only [processFields, processFieldsR, if_neg hk]
      exact ih bufs idx hidx

/-- Extensional equivalence of the two message loops. -/
theorem processMsgs_eq (ms : List StreamMsg) :
    ∀ bufs idx, idx < bufs.length →
      processMsgs ms bufs idx = processMsgsR ms bufs idx := by
  induction ms with
  | nil => intro bufs idx _; rfl
  | cons m rest ih =>
    intro bufs idx hidx
    have hf := processFields_eq m.id m.fields bufs idx hidx
    have hpost := (processFields_post m.id m.fields bufs idx hidx).1
    simp only [processMsgs, processMsgsR, ← hf]
    rw [ih _ _ (by rw [hpost.1]; exact hpost.2)]

/-- The message loop composes over concatenation: the final rotating
index of one call seeds the next. -/
theorem processMsgs_append (ms1 ms2 : List StreamMsg) :
    ∀ bufs idx,
      processMsgs (ms1 ++ ms2) bufs idx =
        ((processMsgs ms1 bufs idx).1 +
          (processMsgs ms2 (processMsgs ms1 bufs idx).2.1
            (processMsgs ms1 bufs idx).2.2).1,
         (processMsgs ms2 (processMsgs ms1 bufs idx).2.1
           (processMsgs ms1 bufs idx).2.2).2) := by
  induction ms1 with
  | nil => intro bufs idx; simp [processMsgs]
  | cons m rest ih =>
    intro bufs idx
    simp only [List.cons_append, processMsgs, List.append_eq]
    rw [ih]
    simp [Nat.add_assoc]

/-- A concrete empty capacity-2 `LogEntry` ring buffer. -/
def rbLE : RBState LogEntry := { cap := 2, head := 0, tail := 0, data := fun _ => default }

/-- A concrete consumer state holding that one buffer. -/
def cxSt : ConsumerState :=
  { bufs := [rbLE], idx := 0, messages_read := 0, parse_errors := 0 }

/-- A concrete one-message reply with a single `data` field. -/
def cxMsg : StreamMsg := { id := "1-1", fields := [("data", "x")] }

/-- A concrete configuration. -/
def cxCfg : ConsumerConfig :=
  { group_name := "g", consumer_name := "c", stream_key := "s",
    read_batch_size := 2, block_ms := 100, polling_interval_ms := 0 }

/-- C2: for each decoded entry the dispatch first tries the buffer
at the rotating index (pushing there and advancing the index when it
is not full); on a full buffer it moves to the next buffer in
rotation with one less attempt left (the loop's `fuel` is the buffer
count, so `N − 1` further probes); when ALL buffers are full the
batch dispatches nothing — buffers and index are returned unchanged —
and the message loop composes sequentially over concatenation, so
the rotating index is carried from one `read_batch` call into the
next. -/
theorem claim_C2_round_robin_dispatch
    (bufs : List (RBState LogEntry)) (idx : Nat) (hidx : idx < bufs.length)
    (e : LogEntry) (fuel : Nat) (ms1 ms2 : List StreamMsg) :
    (¬pushFull (bufs.getD idx default) →
      probe e bufs idx (fuel + 1) =
        (true, bufs.set idx (try_push (bufs.getD idx default) e).2,
         (idx + 1) % bufs.length)) ∧
    (pushFull (bufs.getD idx default) →
      probe e bufs idx (fuel + 1) = probe e bufs ((idx + 1) % bufs.length) fuel) ∧
    ((∀ b ∈ bufs, pushFull b) → processMsgs ms1 bufs idx = (0, bufs, idx)) ∧
    (processMsgs (ms1 ++ ms2) bufs idx =
      ((processMsgs ms1 bufs idx).1 +
        (processMsgs ms2 (processMsgs ms1 bufs idx).2.1
          (processMsgs ms1 bufs idx).2.2).1,
       (processMsgs ms2 (processMsgs ms1 bufs idx).2.1
         (processMsgs ms1 bufs idx).2.2).2)) := by
  refine ⟨?_, ?_, ?_, ?_⟩
  · intro h
    have hs := (try_push_cases (bufs.getD idx default) e).2.2 h
    simp only [probe, hs, if_true]
  · intro h
    have hf := (try_push_cases (bufs.getD idx default) e).2.1 h
    simp only [probe, hf, Bool.false_eq_true, if_false]
  · intro h
    exact (processMsgs_allFull ms1 bufs idx h hidx).1
  · exact processMsgs_append ms1 ms2 bufs idx

/-- C2 witness: a non-full buffer at the rotating index receives the
entry and the index advances. -/
theorem claim_C2_witness :
    probe (default : LogEntry) [rbLE] 0 (0 + 1) =
      (true, [rbLE].set 0 (try_push ([rbLE].getD 0 default) default).2,
       (0 + 1) % [rbLE].length) :=
  (claim_C2_round_robin_dispatch [rbLE] 0 (by decide) default 0 [] []).1 (by decide)

/-- C8 counterexample.  The claim says `recover_pending` performs
"the same per-call stats updates (messages_read)" as `read_batch`;
but `read_batch` executes `messages_read_ += count` (line 199) while
`recover_pending` has no such update: on a one-message reply
dispatched into an empty buffer, `read_batch` leaves
`messages_read = 1` and `recover_pending` leaves it 0. -/
theorem claim_C8_counterexample :
    (read_batch [cxMsg] cxSt).2.messages_read = 1 ∧
    (recover_pending [cxMsg] cxSt).2.messages_read = 0 ∧
    (read_batch [cxMsg] cxSt).2.messages_read ≠
      (recover_pending [cxMsg] cxSt).2.messages_read := by
  refine ⟨?_, ?_, ?_⟩ <;> decide

/-- C8 (amended): for the same decoded reply and consumer state (with
the rotating index in range, as the code maintains), `recover_pending`
returns the same count, the same buffer states and the same rotating
index as `read_batch` — the missing `break` is extensionally
unobservable — and its upstream read uses cursor `"0"` where
`read_batch` uses `">"` (and never a BLOCK argument); but unlike
`read_batch` it does NOT update `messages_read`. -/
theorem claim_C8_recover_pending_amended (msgs : List StreamMsg)
    (st : ConsumerState) (hok : st.bufs = [] ∨ st.idx < st.bufs.length)
    (cfg : ConsumerConfig) :
    (read_batch msgs st).1 = (recover_pending msgs st).1 ∧
    (read_batch msgs st).2.bufs = (recover_pending msgs st).2.bufs ∧
    (read_batch msgs st).2.idx = (recover_pending msgs st).2.idx ∧
    (read_batch msgs st).2.parse_errors = (recover_pending msgs st).2.parse_errors ∧
    (read_batch msgs st).2.messages_read = st.messages_read + (read_batch msgs st).1 ∧
    (recover_pending msgs st).2.messages_read = st.messages_read ∧
    (read_batch_argv cfg).getLast? = some ">" ∧
    (recover_pending_argv cfg).getLast? = some "0" ∧
    (cfg.polling_interval_ms > 0 ∨ cfg.block_ms ≤ 0 →
      (read_batch_argv cfg).dropLast = (recover_pending_argv cfg).dropLast) := by
  have hargv1 : (read_batch_argv cfg).getLast? = some ">" := by
    unfold read_batch_argv
    by_cases hc : cfg.polling_interval_ms ≤ 0 ∧ cfg.block_ms > 0
    · rw [if_pos hc]
      rfl
    · rw [if_neg hc]
      rfl
  have hargv2 : (recover_pending_argv cfg).getLast? = some "0" := rfl
  have hargv3 : cfg.polling_interval_ms > 0 ∨ cfg.block_ms ≤ 0 →
      (read_batch_argv cfg).dropLast = (recover_pending_argv cfg).dropLast := by
    intro h
    have hnc : ¬(cfg.polling_interval_ms ≤ 0 ∧ cfg.block_ms > 0) := by
      rcases h with h | h <;> (intro hc; omega)
    unfold read_batch_argv recover_pending_argv
    rw [if_neg hnc]
    rfl
  rcases hok with hemp | hidx
  · have he : st.bufs.isEmpty = true := by rw [hemp]; rfl
    simp only [read_batch, recover_pending, he, if_true]
    refine ⟨?_, ?_, ?_, ?_, ?_, ?_, hargv1, hargv2, hargv3⟩ <;> trivial
  · have hne : st.bufs ≠ [] := by
      intro hnil
      rw [hnil] at hidx
      simp at hidx
    have he : st.bufs.isEmpty = false := by
      cases h : st.bufs with
      | nil => exact absurd h hne
      | cons a l => simp [h]
    have heq := processMsgs_eq msgs st.bufs st.idx hidx
    simp only [read_batch, recover_pending, he, Bool.false_eq_true, if_false, heq]
    refine ⟨?_, ?_, ?_, ?_, ?_, ?_, hargv1, hargv2, hargv3⟩ <;> trivial

/-- C8 witness: the amended theorem at a concrete reply, state and
configuration. -/
theorem claim_C8_amended_witness :
    (read_batch [cxMsg] cxSt).1 = (recover_pending [cxMsg] cxSt).1 ∧
    (recover_pending_argv cxCfg).getLast? = some "0" :=
  ⟨(claim_C8_recover_pending_amended [cxMsg] cxSt (Or.inr (by decide)) cxCfg).1,
   (claim_C8_recover_pending_amended [cxMsg] cxSt
     (Or.inr (by decide)) cxCfg).2.2.2.2.2.2.2.1⟩

/-! ## Writer pool flush/retry/ack (`clickhouse_writer.cpp`)

One flush of a writer thread is modelled as the sequence of its
observable events.  Whether the k-th `client.Insert` and the k-th
reconnection attempt succeed is an oracle (the database is an
external collaborator). -/

/-- Observable events of a flush. -/
inductive WriterEvent
  | insertAttempt (ok : Bool)
  | reconnect (ok : Bool)
  | sleep (ms : Nat)
  | callback (ids : List String)
  | clearBatch
deriving DecidableEq, Repr

/-- The retry loop `write_with_retry` (clickhouse_writer.cpp lines
79-99) from attempt number `k` with `retries` attempts left:
`write_batch` returns true at once on an empty batch (line 160)
without contacting the database; otherwise one insert is attempted
(`ins k` tells whether it succeeds — on failure `write_batch` also
increments `errors_`, line 207); a failure is followed by a
reconnection attempt (outcome `rec k`, lines 88-93) and a 500 ms
sleep (line 95) whether or not the reconnect succeeded, and the loop
retries. -/
def wwrAux (batch : List LogEntry) (ins rec : Nat → Bool) :
    Nat → Nat → Bool × List WriterEvent
  | _, 0 => (false, [])
  | k, retries + 1 =>
    if batch.isEmpty then (true, [])
    else if ins k then (true, [WriterEvent.insertAttempt true])
    else
      let r := wwrAux batch ins rec (k + 1) retries
      (r.1, WriterEvent.insertAttempt false :: WriterEvent.reconnect (rec k) ::
            WriterEvent.sleep 500 :: r.2)

/-- `write_with_retry`: `int retries = 3` (line 80). -/
def write_with_retry (batch : List LogEntry) (ins rec : Nat → Bool) :
    Bool × List WriterEvent :=
  wwrAux batch ins rec 0 3

/-- The ids collected for the flush callback (lines 110-116 and the
two identical blocks at 129-134, 147-152): the `redis_id`s of
exactly the batch entries whose id is non-empty, in batch order. -/
def ackIds (batch : List LogEntry) : List String :=
  (batch.filter (fun e => !(e.redis_id == ""))).map (fun e => e.redis_id)

/-- One flush step of `writer_thread` (lines 106-120; the partial
and final flush blocks at 126-139 and 144-156 are identical): run
the retried write; only on success invoke `on_flush` with the
collected ids; clear the batch either way.  Returns the event trace
and the batch afterwards. -/
def flush_batch (batch : List LogEntry) (ins rec : Nat → Bool) :
    List WriterEvent × List LogEntry :=
  let r := write_with_retry batch ins rec
  if r.1 then
    (r.2 ++ [WriterEvent.callback (ackIds batch), WriterEvent.clearBatch], [])
  else
    (r.2 ++ [WriterEvent.clearBatch], [])

/-- Number of `errors_` increments in a trace: one per failed
insert attempt (line 207). -/
def countErrors (tr : List WriterEvent) : Nat :=
  tr.countP (fun e => match e with
    | WriterEvent.insertAttempt false => true
    | _ => false)

/-- The retry loop emits no callback events. -/
theorem wwrAux_no_callback (batch : List LogEntry) (ins rec : Nat → Bool) :
    ∀ retries k ids, WriterEvent.callback ids ∉ (wwrAux batch ins rec k retries).2 := by
  intro retries
  induction retries with
  | zero => intro k ids; simp [wwrAux]
  | succ retries ih =>
    intro k ids
    by_cases he : batch.isEmpty
    · simp [wwrAux, he]
    · by_cases hk : ins k
      · simp [wwrAux, he, hk]
      · simp only [wwrAux, he, hk, Bool.false_eq_true, if_false, List.mem_cons]
        push_neg
        exact ⟨by simp, by simp, by simp, ih (k + 1) ids⟩

/-- A successful retry loop on a non-empty batch ends with a
successful insert event. -/
theorem wwrAux_succ (batch : List LogEntry) (ins rec : Nat → Bool)
    (hne : batch ≠ []) :
    ∀ retries k, (wwrAux batch ins rec k retries).1 = true →
      ∃ pre, (wwrAux batch ins rec k retries).2 =
        pre ++ [WriterEvent.insertAttempt true] := by
  have he : batch.isEmpty = false := by
    cases h : batch with
    | nil => exact absurd h hne
    | cons a l => simp [h]
  intro retries
  induction retries with
  | zero => intro k h; simp [wwrAux] at h
  | succ retries ih =>
    intro k h
    by_cases hk : ins k
    · refine ⟨[], ?_⟩
      simp [wwrAux, he, hk]
    · simp only [wwrAux, he, hk, Bool.false_eq_true, if_false] at h ⊢
      obtain ⟨pre, hpre⟩ := ih (k + 1) h
      refine ⟨WriterEvent.insertAttempt false :: WriterEvent.reconnect (rec k) ::
        WriterEvent.sleep 500 :: pre, ?_⟩
      simp [hpre]

/-- When every insert fails and the batch is non-empty, the retry
loop fails. -/
theorem wwrAux_all_fail (batch : List LogEntry) (ins rec : Nat → Bool)
    (hne : batch ≠ []) (hins : ∀ j, ins j = false) :
    ∀ retries k, (wwrAux batch ins rec k retries).1 = false := by
  have he : batch.isEmpty = false := by
    cases h : batch with
    | nil => exact absurd h hne
    | cons a l => simp [h]
  intro retries
  induction retries with
  | zero => intro k; rfl
  | succ retries ih =>
    intro k
    simp only [wwrAux, he, hins k, Bool.false_eq_true, if_false]
    exact ih (k + 1)

/-- C1: whenever the flush callback is invoked its argument is
exactly the non-empty `redis_id`s of the flushed batch, and the
invocation happens only after (immediately following) a successful
insert of that batch; conversely a successful retried write does
invoke it; if no insert attempt ever succeeds the callback is never
invoked for the batch. -/
theorem claim_C1_flush_callback_after_insert (batch : List LogEntry)
    (ins rec : Nat → Bool) :
    (∀ ids, WriterEvent.callback ids ∈ (flush_batch batch ins rec).1 →
      ids = ackIds batch) ∧
    ((write_with_retry batch ins rec).1 = true →
      WriterEvent.callback (ackIds batch) ∈ (flush_batch batch ins rec).1) ∧
    ((write_with_retry batch ins rec).1 = true → batch ≠ [] →
      ∃ pre, (flush_batch batch ins rec).1 =
        pre ++ [WriterEvent.insertAttempt true,
                WriterEvent.callback (ackIds batch), WriterEvent.clearBatch]) ∧
    ((write_with_retry batch ins rec).1 = false →
      ∀ ids, WriterEvent.callback ids ∉ (flush_batch batch ins rec).1) ∧
    ((∀ k, ins k = false) → batch ≠ [] →
      ∀ ids, WriterEvent.callback ids ∉ (flush_batch batch ins rec).1) := by
  have hnocb := wwrAux_no_callback batch ins rec 3 0
  refine ⟨?_, ?_, ?_, ?_, ?_⟩
  · intro ids hmem
    simp only [flush_batch] at hmem
    rcases hres : (write_with_retry batch ins rec).1 with _ | _
    · rw [hres] at hmem
      simp only [Bool.false_eq_true, if_false, List.mem_append, List.mem_singleton] at hmem
      rcases hmem with hmem | hmem
      · exact absurd hmem (hnocb ids)
      · simp at hmem
    · rw [hres] at hmem
      simp only [if_true, List.mem_append, List.mem_cons, List.mem_singleton] at hmem
      rcases hmem with hmem | hmem | hmem
      · exact absurd hmem (hnocb ids)
      · injection hmem
      · simp at hmem
  · intro hres
    simp only [flush_batch]
    rw [hres]
    simp
  · intro hres hne
    obtain ⟨pre, hpre⟩ := wwrAux_succ batch ins rec hne 3 0 hres
    refine ⟨pre, ?_⟩
    simp only [flush_batch]
    rw [hres]
    simp only [if_true]
    show (write_with_retry batch ins rec).2 ++ _ = _
    show (wwrAux batch ins rec 0 3).2 ++ _ = _
    rw [hpre, List.append_assoc]
    rfl
  · intro hres ids
    simp only [flush_batch]
    rw [hres]
    simp only [Bool.false_eq_true, if_false, List.mem_append, List.mem_singleton]
    push_neg
    exact ⟨hnocb ids, by simp⟩
  · intro hins hne ids
    have hfail : (write_with_retry batch ins rec).1 = false :=
      wwrAux_all_fail batch ins rec hne hins 3 0
    simp only [flush_batch]
    rw [hfail]
    simp only [Bool.false_eq_true, if_false, List.mem_append, List.mem_singleton]
    push_neg
    exact ⟨hnocb ids, by simp⟩

/-- A two-entry batch, one acknowledgeable id and one empty id. -/
def demoBatch : List LogEntry :=
  [{ app_id := "a", message := "m", source := "s", level := "INFO",
     environment := "dev", metadata := "\x7b\x7d", trace_id := "", user_id := "",
     redis_id := "1-1" },
   { app_id := "a", message := "m2", source := "s", level := "INFO",
     environment := "dev", metadata := "\x7b\x7d", trace_id := "", user_id := "",
     redis_id := "" }]

/-- C1 witness: a first-try successful insert invokes the callback
with the single non-empty id. -/
theorem claim_C1_witness :
    WriterEvent.callback (ackIds demoBatch) ∈
      (flush_batch demoBatch (fun _ => true) (fun _ => true)).1 :=
  (claim_C1_flush_callback_after_insert demoBatch (fun _ => true)
    (fun _ => true)).2.1 (by decide)

/-- C4: with a non-empty batch whose inserts all fail, the flush
performs exactly three insert attempts, each failure followed by a
reconnection attempt (regardless of its outcome) and a 500 ms sleep;
after the third failure the batch is discarded (cleared), `errors_`
has been incremented three times — once per failed attempt, inside
`write_batch` — and no id of the batch reaches the flush callback. -/
theorem claim_C4_retry_exhaustion (batch : List LogEntry) (ins rec : Nat → Bool)
    (hne : batch ≠ []) (hins : ∀ j, ins j = false) :
    write_with_retry batch ins rec =
      (false,
       [WriterEvent.insertAttempt false, WriterEvent.reconnect (rec 0),
        WriterEvent.sleep 500,
        WriterEvent.insertAttempt false, WriterEvent.reconnect (rec 1),
        WriterEvent.sleep 500,
        WriterEvent.insertAttempt false, WriterEvent.reconnect (rec 2),
        WriterEvent.sleep 500]) ∧
    (flush_batch batch ins rec).2 = [] ∧
    countErrors (flush_batch batch ins rec).1 = 3 ∧
    (∀ ids, WriterEvent.callback ids ∉ (flush_batch batch ins rec).1) := by
  have he : batch.isEmpty = false := by
    cases h : batch with
    | nil => exact absurd h hne
    | cons a l => simp [h]
  have hmain : write_with_retry batch ins rec =
      (false,
       [WriterEvent.insertAttempt false, WriterEvent.reconnect (rec 0),
        WriterEvent.sleep 500,
        WriterEvent.insertAttempt false, WriterEvent.reconnect (rec 1),
        WriterEvent.sleep 500,
        WriterEvent.insertAttempt false, WriterEvent.reconnect (rec 2),
        WriterEvent.sleep 500]) := by
    simp [write_with_retry, wwrAux, he, hins 0, hins 1, hins 2]
  have hflush : flush_batch batch ins rec =
      ([WriterEvent.insertAttempt false, WriterEvent.reconnect (rec 0),
        WriterEvent.sleep 500,
        WriterEvent.insertAttempt false, WriterEvent.reconnect (rec 1),
        WriterEvent.sleep 500,
        WriterEvent.insertAttempt false, WriterEvent.reconnect (rec 2),
        WriterEvent.sleep 500, WriterEvent.clearBatch], []) := by
    simp only [flush_batch]
    rw [hmain]
    simp
  refine ⟨hmain, by rw [hflush], ?_, ?_⟩
  · rw [hflush]
    simp [countErrors]
  · intro ids
    rw [hflush]
    simp

/-- C4 witness: the theorem at a concrete batch and oracles. -/
theorem claim_C4_witness :
    countErrors (flush_batch demoBatch (fun _ => false) (fun _ => true)).1 = 3 :=
  (claim_C4_retry_exhaustion demoBatch (fun _ => false) (fun _ => true)
    (by decide) (fun _ => rfl)).2.2.1

/-! ## Orchestrator exit codes (`main.cpp`) -/

/-- `ClickHouseWriter::start` (clickhouse_writer.cpp lines 16-33):
false when already running or when the buffer count differs from
`writer_threads`; otherwise the worker threads are spawned — each
attempting its own database connection (lines 66-73), a failing
worker merely logs and exits its thread — and start returns true.
Returns start's result together with the workers' connection
outcomes. -/
def ch_start (already_running : Bool) (nbuffers writer_threads : Nat)
    (worker_db_connect : Nat → Bool) : Bool × List Bool :=
  if already_running then (false, [])
  else if nbuffers ≠ writer_threads then (false, [])
  else (true, (List.range writer_threads).map worker_db_connect)

/-- `main` (main.cpp lines 54-69 and 128): exit 1 when the upstream
connect fails, exit 1 when `writer.start` returns false, else the
main loop runs and `main` returns 0. -/
def main_exit (connect_ok start_ok : Bool) : Nat :=
  if !connect_ok then 1
  else if !start_ok then 1
  else 0

/-- C9 counterexample.  The claim includes "a writer worker failing
to open its database connection" among the exit-1 conditions; but a
worker's failed connect only ends that worker thread —
`start` still returns true and the process exits 0. -/
theorem claim_C9_counterexample :
    (ch_start false 1 1 (fun _ => false)).1 = true ∧
    (ch_start false 1 1 (fun _ => false)).2 = [false] ∧
    main_exit true (ch_start false 1 1 (fun _ => false)).1 = 0 := by
  refine ⟨rfl, rfl, rfl⟩

/-- C9 (amended): the process exits 1 exactly when the upstream
connect fails or `writer.start` returns false — the latter exactly
when the pool was already running or the buffer count differs from
`writer_threads` — and 0 otherwise; the workers' database-connection
outcomes do not influence `start`'s result or the exit code. -/
theorem claim_C9_exit_codes_amended (connect_ok already_running : Bool)
    (nbuffers writer_threads : Nat) (f g : Nat → Bool) :
    (main_exit connect_ok (ch_start already_running nbuffers writer_threads f).1 = 1 ↔
      (connect_ok = false ∨
       (ch_start already_running nbuffers writer_threads f).1 = false)) ∧
    (main_exit connect_ok (ch_start already_running nbuffers writer_threads f).1 = 0 ↔
      (connect_ok = true ∧
       (ch_start already_running nbuffers writer_threads f).1 = true)) ∧
    ((ch_start already_running nbuffers writer_threads f).1 = false ↔
      (already_running = true ∨ nbuffers ≠ writer_threads)) ∧
    (ch_start already_running nbuffers writer_threads f).1 =
      (ch_start already_running nbuffers writer_threads g).1 := by
  unfold ch_start main_exit
  rcases connect_ok with _ | _ <;> rcases already_running with _ | _ <;>
    by_cases hn : nbuffers ≠ writer_threads <;> simp [hn]

/-- C9 amended witness: a clean start exits 0. -/
theorem claim_C9_amended_witness :
    main_exit true (ch_start false 2 2 (fun _ => true)).1 = 0 :=
  ((claim_C9_exit_codes_amended true false 2 2 (fun _ => true)
    (fun _ => false)).2.1).mpr ⟨rfl, by decide⟩

/-- C3 amended witness: the amended theorem evaluated at the
concrete empty capacity-2 buffer. -/
theorem claim_C3_amended_witness :
    (pop_batch rbEmpty2 [] 5).2.2.1 = min (occ rbEmpty2) 5 ∧
    (pop_batch rbEmpty2 [] 5).2.2.2 ≤ 1 :=
  ⟨(claim_C3_pop_batch_amended rbEmpty2 [] 5
      ⟨⟨1, by decide, rfl⟩, by decide, by decide⟩).1,
   (claim_C3_pop_batch_amended rbEmpty2 [] 5
      ⟨⟨1, by decide, rfl⟩, by decide, by decide⟩).2.2.2.2.2.2.1⟩

end Ingester
